import Mathlib

/-!
Shallow embedding of the go-proxy-tee relay core (package `net` in
`subcommand/net/net.go` and package `binaryfile` in
`subcommand/binaryfile/binaryfile.go`).

Go byte slices are modelled as `List UInt8`; Go strings are byte strings, so
rendered text is also modelled as `List UInt8`.  Machine `uint32` arithmetic
is modelled with `Nat` and explicit `% 2^32`.  Loops whose progress depends
on run-time data are given a fuel parameter and return `Option`: a `none`
result means the fuel ran out, and a result that is `none` for every fuel
models a non-terminating loop.  The external binary-XML codec
(`binaryxml_messages.ReadMessage`, `binaryxml.ToXML`) and the XML
pretty-printer are black-box collaborators and are passed in as a `Codec`
parameter.
-/

namespace ProxyTee

/-- Go byte slices / byte strings. -/
abbrev Bytes := List UInt8

/-! Constants from `net.go`. -/

def BINARY_XML_LENGTH_BEGIN_TOKEN : Nat := 1
def BINARY_XML_LENGTH_LENGTH : Nat := 4
def BINARY_XML_LENGTH_PARAM : Nat := 1
def BINARY_XML_LENGTH_END_TOKEN : Nat := 1
def BINARY_XML_LENGTH_CRC : Nat := 4

def BINARY_XML_LENGTHS : Nat :=
  BINARY_XML_LENGTH_BEGIN_TOKEN + BINARY_XML_LENGTH_LENGTH +
  BINARY_XML_LENGTH_PARAM + BINARY_XML_LENGTH_END_TOKEN + BINARY_XML_LENGTH_CRC

def BINARY_XML_START : UInt8 := 121

/-- Modulus of Go `uint32` arithmetic. -/
def U32 : Nat := 4294967296

/-- String literal to Go byte string. -/
def strBytes (s : String) : Bytes := s.toUTF8.toList

/-! Faithful model of Go `encoding/hex.Dump` (`hexdump -C` style output),
which the relay uses to render opaque byte spans. -/

def hexDigitChar (n : Nat) : UInt8 :=
  if n < 10 then 48 + UInt8.ofNat n else 87 + UInt8.ofNat n

def byteHex (b : UInt8) : Bytes :=
  [hexDigitChar (b.toNat / 16), hexDigitChar (b.toNat % 16)]

def offsetHex (n : Nat) : Bytes :=
  (List.range 8).map (fun i => hexDigitChar (n % U32 / 16 ^ (7 - i) % 16))

def hexCell (chunk : Bytes) (i : Nat) : Bytes :=
  match chunk.get? i with
  | some b => byteHex b ++ [32]
  | none => [32, 32, 32]

def asciiCell (b : UInt8) : UInt8 :=
  if 32 ≤ b.toNat ∧ b.toNat ≤ 126 then b else 46

def hexDumpLine (off : Nat) (chunk : Bytes) : Bytes :=
  offsetHex off ++ [32, 32]
    ++ ((List.range 8).map (hexCell chunk)).flatten
    ++ [32]
    ++ ((List.range 8).map (fun i => hexCell chunk (i + 8))).flatten
    ++ [32, 124] ++ chunk.map asciiCell ++ [124, 10]

def chunks16 (l : Bytes) : List Bytes :=
  match l with
  | [] => []
  | a :: rest => (a :: rest.take 15) :: chunks16 (rest.drop 15)
termination_by l.length
decreasing_by
  simp only [List.length_drop, List.length_cons]
  omega

def hexDump (bs : Bytes) : Bytes :=
  ((chunks16 bs).enum.map (fun p => hexDumpLine (16 * p.1) p.2)).flatten

/-! Frame scanner `hexParseSplit` of `net.go` (lines 169-199). -/

/-- Big-endian `uint32` read, as `binary.Read(reader, binary.BigEndian, &messageLength)`. -/
def beU32 (b0 b1 b2 b3 : UInt8) : Nat :=
  b0.toNat * 16777216 + b1.toNat * 65536 + b2.toNat * 256 + b3.toNat

/-- Model of `hexParseSplit`: read one token byte; on the start sentinel,
read a big-endian `uint32` length, compute `messageLength +
BINARY_XML_LENGTHS` in `uint32` arithmetic and clamp to the buffer length;
any read failure or non-sentinel token returns the whole message. -/
def hexParseSplit (message : Bytes) : Bytes :=
  match message with
  | [] => message
  | token :: rest =>
    if token = BINARY_XML_START then
      match rest with
      | b0 :: b1 :: b2 :: b3 :: _ =>
        let messageLength := beU32 b0 b1 b2 b3
        let splitLength := message.length % U32
        let finalLength := (messageLength + BINARY_XML_LENGTHS) % U32
        if finalLength < splitLength then message.take finalLength
        else message.take splitLength
      | _ => message
    else message

/-- Model of the `hexParse` loop body (net.go lines 201-210), with fuel.
`none` means the loop did not finish within the given fuel. -/
def hexParseLoop (message : Bytes) : Nat → Nat → Bytes → Option Bytes
  | 0, _, _ => none
  | fuel + 1, offset, result =>
    if offset < message.length then
      let slice := hexParseSplit (message.drop offset)
      hexParseLoop message fuel (offset + slice.length) (result ++ [10] ++ hexDump slice)
    else some result

def hexParseGo (fuel : Nat) (message : Bytes) : Option Bytes :=
  hexParseLoop message fuel 0 []

/-! Decoded-markup renderer `binaryxmlParse` of `net.go` (lines 212-244).
The binary-XML codec is external (`github.com/BixData/binaryxml`), so it is a
parameter.  `readMessage` models `binaryxml_messages.ReadMessage` applied to
a reader over the given bytes: on success it returns the number of bytes it
consumed from the reader (`readerOriginalLength - readerFinalLength`)
together with the new contents of the 16K `xmlBuffer`; `none` is a read
error.  `toXML` models `binaryxml.ToXML` on the buffer; `fmtXML` models
`formatXML` with the error case already collapsed to the empty string (the
Go code discards the error and formats a nil slice as ""). -/

structure Codec where
  readMessage : Bytes → Option (Nat × Bytes)
  toXML : Bytes → Option Bytes
  fmtXML : Bytes → Bytes

/-- Model of the `binaryxmlParse` loop.  In Go, the `break` statements on the
two codec failure paths leave only the `switch`, not the `for`, so the loop
re-enters with `offset` unchanged; the model recurses with the same offset
and burns one unit of fuel.  The `default` case sets `offset = len(message)`
and lets the loop condition terminate on the next pass. -/
def binaryxmlLoop (codec : Codec) (message : Bytes) : Nat → Nat → Bytes → Option Bytes
  | 0, _, _ => none
  | fuel + 1, offset, result =>
    if h : offset < message.length then
      if message[offset] = BINARY_XML_START then
        match codec.readMessage (message.drop offset) with
        | none => binaryxmlLoop codec message fuel offset result
        | some (consumed, xmlBuffer) =>
          match codec.toXML xmlBuffer with
          | none => binaryxmlLoop codec message fuel offset result
          | some binaryXmlString =>
            binaryxmlLoop codec message fuel (offset + consumed)
              (if binaryXmlString.length > 0 then
                result ++ [10] ++ codec.fmtXML binaryXmlString
              else result)
      else binaryxmlLoop codec message fuel message.length result
    else some result

def binaryxmlParse (codec : Codec) (fuel : Nat) (message : Bytes) : Option Bytes :=
  binaryxmlLoop codec message fuel 0 (hexDump message)

/-! Capture-record framing (`horizontalRule` and the `outline` format string
of `proxy` / `proxyTee`).  `now` stands for `time.Now().String()`. -/

def horizontalRule (now title : Bytes) : Bytes :=
  let newTitle := now ++ [32] ++ title
  strBytes "-------- " ++ newTitle ++ [32] ++ List.replicate (68 - newTitle.length) 45

/-- The `fmt.Sprintf("%s\n%s\n\n", horizontalRule(prefix), outString)` record. -/
def goOutline (now title outString : Bytes) : Bytes :=
  horizontalRule now title ++ [10] ++ outString ++ [10, 10]

/-! The capture mode switch shared by `proxy` and `proxyTee`.  `Fmt.unknown`
models any `viper.Get(FORMAT)` value other than the five named formats (the
Go `default` case). -/

inductive Fmt where
  | binaryfile
  | binaryxml
  | hex
  | hexparsed
  | str
  | unknown
deriving DecidableEq

/-- The `switch viper.Get(FORMAT)` computation of `outString` from the read
chunk, shared by `proxy` (lines 351-365) and `proxyTee` (lines 417-432).
`FORMAT_STRING` and the default case yield the raw bytes as a Go string,
which as a byte string is the chunk itself. -/
def renderFormat (codec : Codec) (fuel : Nat) (fmt : Fmt) (message : Bytes) : Option Bytes :=
  match fmt with
  | .binaryfile => some []
  | .binaryxml => binaryxmlParse codec fuel message
  | .hex => some (hexDump message)
  | .hexparsed => hexParseGo fuel message
  | .str => some message
  | .unknown => some message

/-! Tee session model.  A `TeeConn` is one peer of a session: its id and
pass-through flag from the configuration, plus `writeOk`, the environment
fact of whether writes to its connection succeed. -/

structure TeeConn where
  id : String
  passThru : Bool
  writeOk : Bool
deriving DecidableEq, Repr

/-- Peer list built by `Command` (net.go lines 539-561): the "outbound" tee
is appended first with `PassThru: true`; the tees from the configuration
file are appended after it with the `PassThru` field left at its zero value
`false`.  `defs` carries, per configured tee, its key and the environment
write-success flag of its connection. -/
def buildTees (outboundWriteOk : Bool) (defs : List (String × Bool)) : List TeeConn :=
  ⟨"outbound", true, outboundWriteOk⟩ :: defs.map (fun d => ⟨d.1, false, d.2⟩)

/-! Response direction: one `proxy` loop per peer (net.go lines 330-389).
Each iteration reads a chunk from the peer connection, renders it, appends
either the separator-framed record (non-empty `outString`) or the raw chunk
(empty `outString`) to the peer file, and, for a pass-through peer, writes
the raw chunk back to the inbound connection. -/

structure ProxyIterOut where
  fileWrite : Bytes
  echoWrite : Option Bytes
  continues : Bool
deriving DecidableEq

/-- The file-logging step of one `proxy` iteration (net.go lines 369-374):
a non-empty rendered string is framed with the separator and written with
`WriteString`, an empty one falls back to writing the raw chunk. -/
def proxyFileWrite (now title outString chunk : Bytes) : Bytes :=
  if outString.length > 0 then goOutline now title outString else chunk

def proxyIter (codec : Codec) (fuel : Nat) (fmt : Fmt) (now title : Bytes)
    (passThru writeOk : Bool) (chunk : Bytes) : Option ProxyIterOut :=
  match renderFormat codec fuel fmt chunk with
  | none => none
  | some outString =>
    if passThru then
      if writeOk then some ⟨proxyFileWrite now title outString chunk, some chunk, true⟩
      else some ⟨proxyFileWrite now title outString chunk, none, false⟩
    else some ⟨proxyFileWrite now title outString chunk, none, true⟩

/-- A whole `proxy` run over the finite list of chunks its peer connection
delivers before the read that fails (the read failure makes `proxy` return).
Returns the peer-file appends and the raw echo writes to the inbound
connection, both in order. -/
def proxyRun (codec : Codec) (fuel : Nat) (fmt : Fmt) (now title : Bytes)
    (passThru writeOk : Bool) : List Bytes → Option (List Bytes × List Bytes)
  | [] => some ([], [])
  | chunk :: rest =>
    match proxyIter codec fuel fmt now title passThru writeOk chunk with
    | none => none
    | some o =>
      if o.continues then
        match proxyRun codec fuel fmt now title passThru writeOk rest with
        | none => none
        | some (fs, es) =>
          some (o.fileWrite :: fs, o.echoWrite.toList ++ es)
      else some ([o.fileWrite], o.echoWrite.toList)

/-! Request direction: the `proxyTee` loop (net.go lines 392-457).  Each
iteration reads a chunk from the inbound connection, renders it once, then
walks the tee list in order: the record is appended to the tee file when the
rendered string is non-empty, and the raw chunk is written to the tee
connection; a failed connection write makes `proxyTee` return. -/

structure TeeIterOut where
  inboundFileWrite : Bytes
  teeFileWrites : List (String × Bytes)
  connWrites : List (String × Bytes)
  continues : Bool
deriving DecidableEq

/-- The per-tee fan-out of one `proxyTee` iteration. -/
def teeFanout (outIsEmpty : Bool) (outline chunk : Bytes) :
    List TeeConn → List (String × Bytes) × List (String × Bytes) × Bool
  | [] => ([], [], true)
  | tee :: rest =>
    let fileW : List (String × Bytes) :=
      if outIsEmpty then [] else [(tee.id, outline)]
    if tee.writeOk then
      let r := teeFanout outIsEmpty outline chunk rest
      (fileW ++ r.1, (tee.id, chunk) :: r.2.1, r.2.2)
    else (fileW, [], false)

def proxyTeeIter (codec : Codec) (fuel : Nat) (fmt : Fmt) (now title : Bytes)
    (tees : List TeeConn) (chunk : Bytes) : Option TeeIterOut :=
  match renderFormat codec fuel fmt chunk with
  | none => none
  | some outString =>
    let inboundFileWrite := if fmt = .binaryfile then chunk else []
    let outline := goOutline now title outString
    let r := teeFanout (outString.length = 0) outline chunk tees
    some ⟨inboundFileWrite, r.1, r.2.1, r.2.2⟩

/-- A whole `proxyTee` run over the finite list of chunks the inbound
connection delivers before its read fails. -/
def proxyTeeRun (codec : Codec) (fuel : Nat) (fmt : Fmt) (now title : Bytes)
    (tees : List TeeConn) : List Bytes → Option (List TeeIterOut)
  | [] => some []
  | chunk :: rest =>
    match proxyTeeIter codec fuel fmt now title tees chunk with
    | none => none
    | some o =>
      if o.continues then
        match proxyTeeRun codec fuel fmt now title tees rest with
        | none => none
        | some os => some (o :: os)
      else some [o]

/-! One tee session: the request-direction `proxyTee` task over the inbound
chunk stream, plus one independent `proxy` task per peer over that peer's
own response chunk stream (net.go lines 563-570). -/

def sessionRun (codec : Codec) (fuel : Nat) (fmt : Fmt) (now reqTitle respTitle : Bytes)
    (tees : List TeeConn) (inboundChunks : List Bytes)
    (responseStreams : List (List Bytes)) :
    Option (List TeeIterOut) × List (Option (List Bytes × List Bytes)) :=
  (proxyTeeRun codec fuel fmt now reqTitle tees inboundChunks,
   List.zipWith
     (fun (tee : TeeConn) stream =>
       proxyRun codec fuel fmt now respTitle tee.passThru tee.writeOk stream)
     tees responseStreams)

/-! Resync scan `readHex` of `binaryfile.go` (lines 121-154), invoked by
`formatBinaryXml` when the byte at the current offset is not the start
sentinel.  It reads byte-by-byte, collecting bytes until it reads the
sentinel or the reader is exhausted, then seeks the reader back one byte.
The result is the collected span and the reader position after the seek
(the offset at which the caller resumes). -/

/-- The collection loop: given the byte just read and the bytes still ahead,
return the collected bytes and the number of successful reads performed
(including the read that produced the first argument). -/
def readHexLoop : UInt8 → Bytes → Bytes × Nat
  | a, rest =>
    if a = BINARY_XML_START then ([], 1)
    else
      match rest with
      | [] => ([a], 1)
      | b :: t =>
        let r := readHexLoop b t
        (a :: r.1, r.2 + 1)

/-- Model of `readHex` on buffer `buf` with the reader at position `o`.
When the reader is already exhausted the initial read fails with its error
discarded, and the loop writes the zero-initialised `aByte` once; this case
is unreachable from `formatBinaryXml`, which only calls `readHex` while
`reader.Len() > 0`. -/
def readHex (buf : Bytes) (o : Nat) : Bytes × Nat :=
  match buf.drop o with
  | [] => ([0], buf.length - 1)
  | a :: rest =>
    let r := readHexLoop a rest
    (r.1, o + r.2 - 1)

/-! Concrete codecs used to instantiate the codec parameter in witnesses. -/

/-- A codec whose message read always fails. -/
def failCodec : Codec :=
  ⟨fun _ => none, fun _ => none, fun _ => []⟩

/-- A codec that accepts any frame, consuming the whole remainder. -/
def okCodec : Codec :=
  ⟨fun bs => some (bs.length, bs), fun bs => some bs, fun bs => bs⟩

/-! Helper lemmas. -/

theorem teeFanout_connWrites (e : Bool) (outline chunk : Bytes) (tees : List TeeConn) :
    (teeFanout e outline chunk tees).2.1
      = (tees.takeWhile (fun t => t.writeOk)).map (fun t => (t.id, chunk)) := by
  induction tees with
  | nil => rfl
  | cons t ts ih =>
    cases hw : t.writeOk with
    | false => simp [teeFanout, List.takeWhile_cons, hw]
    | true => simp [teeFanout, List.takeWhile_cons, hw, ih]

theorem teeFanout_continues (e : Bool) (outline chunk : Bytes) (tees : List TeeConn) :
    (teeFanout e outline chunk tees).2.2 = tees.all (fun t => t.writeOk) := by
  induction tees with
  | nil => rfl
  | cons t ts ih =>
    cases hw : t.writeOk with
    | false => simp [teeFanout, List.all_cons, hw]
    | true => simp [teeFanout, List.all_cons, hw, ih]

theorem teeFanout_fileWrites_empty (outline chunk : Bytes) (tees : List TeeConn) :
    (teeFanout true outline chunk tees).1 = [] := by
  induction tees with
  | nil => rfl
  | cons t ts ih =>
    cases hw : t.writeOk with
    | false => simp [teeFanout, hw]
    | true => simp [teeFanout, hw, ih]

theorem teeFanout_fileWrites_mem (outline chunk : Bytes) (tees : List TeeConn) :
    ∀ w ∈ (teeFanout false outline chunk tees).1, w.2 = outline := by
  induction tees with
  | nil => intro w hw; cases hw
  | cons t ts ih =>
    intro w hw
    cases hwk : t.writeOk with
    | false =>
      simp only [teeFanout, hwk, Bool.false_eq_true, if_false, if_neg (by decide : ¬False),
        List.mem_singleton] at hw
      subst hw; rfl
    | true =>
      simp [teeFanout, hwk] at hw
      rcases hw with h | h
      · simp [h]
      · exact ih w h

theorem readHexLoop_spec : ∀ (rest : Bytes) (a : UInt8),
    readHexLoop a rest =
      match (a :: rest).findIdx? (fun b => b = BINARY_XML_START) with
      | some d => ((a :: rest).take d, d + 1)
      | none => (a :: rest, rest.length + 1) := by
  intro rest
  induction rest with
  | nil =>
    intro a
    by_cases h : a = BINARY_XML_START
    · subst h
      simp [readHexLoop, List.findIdx?_cons]
    · simp [readHexLoop, h, List.findIdx?_cons, List.findIdx?_nil]
  | cons b t ih =>
    intro a
    by_cases h : a = BINARY_XML_START
    · subst h
      simp [readHexLoop, List.findIdx?_cons]
    · simp only [readHexLoop, if_neg h, ih b]
      rcases hf : (b :: t).findIdx? (fun x => x = BINARY_XML_START) with _ | d <;>
        simp [List.findIdx?_cons, h, hf]

theorem hexDump_ne_nil (a : UInt8) (l : Bytes) : hexDump (a :: l) ≠ [] := by
  simp only [hexDump, chunks16, List.enum, List.enumFrom, List.map_cons, List.flatten_cons]
  intro h
  rcases List.append_eq_nil.mp h with ⟨h1, _⟩
  simp only [hexDumpLine, offsetHex] at h1
  rcases List.append_eq_nil.mp h1 with ⟨h2, _⟩
  rcases List.append_eq_nil.mp h2 with ⟨h3, _⟩
  rcases List.append_eq_nil.mp h3 with ⟨h4, _⟩
  rcases List.append_eq_nil.mp h4 with ⟨h5, _⟩
  simp at h5

theorem hexParseLoop_extends (message : Bytes) (fuel : Nat) :
    ∀ offset result r, hexParseLoop message fuel offset result = some r →
      ∃ t, r = result ++ t := by
  induction fuel with
  | zero => intro _ _ _ h; cases h
  | succ f ih =>
    intro offset result r h
    rw [hexParseLoop] at h
    split at h
    · obtain ⟨t, ht⟩ := ih _ _ _ h
      exact ⟨[10] ++ hexDump (hexParseSplit (message.drop offset)) ++ t, by
        simp only [ht]; simp [List.append_assoc]⟩
    · exact ⟨[], by simp [Option.some.injEq] at h; simp [h]⟩

theorem binaryxmlLoop_extends (codec : Codec) (message : Bytes) (fuel : Nat) :
    ∀ offset result r, binaryxmlLoop codec message fuel offset result = some r →
      ∃ t, r = result ++ t := by
  induction fuel with
  | zero => intro _ _ _ h; cases h
  | succ f ih =>
    intro offset result r h
    rw [binaryxmlLoop] at h
    split at h
    · split at h
      · split at h
        · exact ih _ _ _ h
        · split at h
          · exact ih _ _ _ h
          · next binaryXmlString htx =>
            by_cases hlen : binaryXmlString.length > 0
            · rw [if_pos hlen] at h
              obtain ⟨t, ht⟩ := ih _ _ _ h
              exact ⟨[10] ++ codec.fmtXML binaryXmlString ++ t, by
                simp only [ht]; simp [List.append_assoc]⟩
            · rw [if_neg hlen] at h
              exact ih _ _ _ h
      · exact ih _ _ _ h
    · exact ⟨[], by simp only [Option.some.injEq] at h; simp [h]⟩

theorem hexParseGo_ne_nil (fuel : Nat) (a : UInt8) (l : Bytes) (r : Bytes)
    (h : hexParseGo fuel (a :: l) = some r) : r ≠ [] := by
  cases fuel with
  | zero => cases h
  | succ f =>
    rw [hexParseGo, hexParseLoop] at h
    rw [if_pos (by simp)] at h
    obtain ⟨t, ht⟩ := hexParseLoop_extends _ _ _ _ _ h
    simp only [ht]
    simp

theorem binaryxmlParse_ne_nil (codec : Codec) (fuel : Nat) (a : UInt8) (l : Bytes)
    (r : Bytes) (h : binaryxmlParse codec fuel (a :: l) = some r) : r ≠ [] := by
  rw [binaryxmlParse] at h
  obtain ⟨t, ht⟩ := binaryxmlLoop_extends _ _ _ _ _ _ h
  subst ht
  intro hc
  rcases List.append_eq_nil.mp hc with ⟨h1, _⟩
  exact hexDump_ne_nil a l h1

theorem renderFormat_ne_nil (codec : Codec) (fuel : Nat) (fmt : Fmt) (chunk outString : Bytes)
    (hfmt : fmt ≠ .binaryfile) (hchunk : chunk ≠ [])
    (hr : renderFormat codec fuel fmt chunk = some outString) : outString ≠ [] := by
  obtain ⟨a, l, rfl⟩ : ∃ a l, chunk = a :: l := by
    cases chunk with
    | nil => exact absurd rfl hchunk
    | cons a l => exact ⟨a, l, rfl⟩
  cases fmt with
  | binaryfile => exact absurd rfl hfmt
  | binaryxml => exact binaryxmlParse_ne_nil _ _ _ _ _ hr
  | hex =>
    simp only [renderFormat, Option.some.injEq] at hr
    simpa [← hr] using hexDump_ne_nil a l
  | hexparsed => exact hexParseGo_ne_nil _ _ _ _ hr
  | str =>
    simp only [renderFormat, Option.some.injEq] at hr
    simp [← hr]
  | unknown =>
    simp only [renderFormat, Option.some.injEq] at hr
    simp [← hr]

/-! Claim theorems. -/

/-- C4: for every buffer whose first byte is the start sentinel (121) and
that begins with a well-formed frame (valid big-endian 4-byte length prefix
and at least `declaredPayloadLength + 11` bytes available), `hexParseSplit`
returns a span whose length equals `declaredPayloadLength +
BINARY_XML_LENGTHS`, with `BINARY_XML_LENGTHS` = 1 start + 4 length + 1
param + 1 end-marker + 4 checksum = 11 bytes. -/
theorem hexParseSplit_wellformed_length
    (b0 b1 b2 b3 : UInt8) (rest : Bytes) (message : Bytes)
    (hm : message = BINARY_XML_START :: b0 :: b1 :: b2 :: b3 :: rest)
    (havail : beU32 b0 b1 b2 b3 + BINARY_XML_LENGTHS ≤ message.length)
    (hsmall : message.length < U32) :
    (hexParseSplit message).length = beU32 b0 b1 b2 b3 + BINARY_XML_LENGTHS := by
  subst hm
  show (if (beU32 b0 b1 b2 b3 + BINARY_XML_LENGTHS) % U32
          < (BINARY_XML_START :: b0 :: b1 :: b2 :: b3 :: rest).length % U32 then
        List.take ((beU32 b0 b1 b2 b3 + BINARY_XML_LENGTHS) % U32)
          (BINARY_XML_START :: b0 :: b1 :: b2 :: b3 :: rest)
      else
        List.take ((BINARY_XML_START :: b0 :: b1 :: b2 :: b3 :: rest).length % U32)
          (BINARY_XML_START :: b0 :: b1 :: b2 :: b3 :: rest)).length
      = beU32 b0 b1 b2 b3 + BINARY_XML_LENGTHS
  rw [Nat.mod_eq_of_lt hsmall, Nat.mod_eq_of_lt (lt_of_le_of_lt havail hsmall)]
  split <;> simp only [List.length_take, List.length_cons] at * <;> omega

/-- C4 witness: a concrete well-formed frame with a 3-byte payload yields a
14-byte span. -/
theorem hexParseSplit_wellformed_length_witness :
    (hexParseSplit [121, 0, 0, 0, 3, 7, 65, 66, 67, 122, 1, 2, 3, 4]).length
      = beU32 0 0 0 3 + BINARY_XML_LENGTHS :=
  hexParseSplit_wellformed_length 0 0 0 3 [7, 65, 66, 67, 122, 1, 2, 3, 4] _ rfl
    (by decide) (by decide)

/-- C8: for every non-empty buffer whose first byte is not the start
sentinel, `hexParseSplit` returns the entire buffer, `hexParse` renders the
whole buffer as a single hex-dump block, and `binaryxmlParse` (for any
codec) renders the whole buffer as its initial hex dump and nothing else. -/
theorem notAFrame_whole_buffer (b : UInt8) (rest : Bytes)
    (hb : b ≠ BINARY_XML_START) :
    hexParseSplit (b :: rest) = b :: rest
    ∧ (∀ fuel, 2 ≤ fuel →
        hexParseGo fuel (b :: rest) = some ([10] ++ hexDump (b :: rest)))
    ∧ (∀ codec fuel, 2 ≤ fuel →
        binaryxmlParse codec fuel (b :: rest) = some (hexDump (b :: rest))) := by
  have hsplit : hexParseSplit (b :: rest) = b :: rest := by
    simp [hexParseSplit, hb]
  refine ⟨hsplit, ?_, ?_⟩
  · intro fuel hf
    obtain ⟨f, rfl⟩ : ∃ f, fuel = f + 2 := ⟨fuel - 2, by omega⟩
    rw [hexParseGo, hexParseLoop, if_pos (by simp), List.drop_zero, hsplit,
      hexParseLoop, if_neg (by simp)]
    simp
  · intro codec fuel hf
    obtain ⟨f, rfl⟩ : ∃ f, fuel = f + 2 := ⟨fuel - 2, by omega⟩
    rw [binaryxmlParse, binaryxmlLoop, dif_pos (by simp)]
    rw [if_neg (by simpa using hb), binaryxmlLoop, dif_neg (by simp)]

/-- C8 witness: the printable buffer "AB" is not a frame and is rendered
whole by all three functions. -/
theorem notAFrame_whole_buffer_witness :
    hexParseSplit [65, 66] = [65, 66]
    ∧ hexParseGo 2 [65, 66] = some ([10] ++ hexDump [65, 66])
    ∧ binaryxmlParse okCodec 2 [65, 66] = some (hexDump [65, 66]) := by
  obtain ⟨h1, h2, h3⟩ := notAFrame_whole_buffer 65 [66] (by decide)
  exact ⟨h1, h2 2 (by omega), h3 okCodec 2 (by omega)⟩

/-- C10: the claim that `hexParseSplit` always consumes at least one byte of
a non-empty remainder fails: on a frame header whose declared payload length
is 4294967285, the `uint32` sum `messageLength + BINARY_XML_LENGTHS` wraps
to 0, `hexParseSplit` returns the empty span, and the `hexParse` loop never
advances its offset, so `hexParse` does not terminate (the fuelled model
returns `none` for every fuel). -/
theorem hexParse_overflow_no_progress :
    hexParseSplit [121, 255, 255, 255, 245] = []
    ∧ ∀ fuel, hexParseGo fuel [121, 255, 255, 255, 245] = none := by
  have key : ∀ fuel result,
      hexParseLoop [121, 255, 255, 255, 245] fuel 0 result = none := by
    intro fuel
    induction fuel with
    | zero => intro result; rfl
    | succ f ih =>
      intro result
      rw [hexParseLoop, if_pos (by simp), List.drop_zero]
      rw [show hexParseSplit [121, 255, 255, 255, 245] = [] from by decide]
      exact ih _
  exact ⟨by decide, fun fuel => key fuel []⟩

/-- C5: on a codec read failure at a sentinel byte, the Go `break` leaves
only the `switch`, not the `for`, so `binaryxmlParse` re-attempts the same
frame with an unchanged offset forever instead of skipping it: the fuelled
model returns `none` for every fuel.  This contradicts the claim that the
renderer continues with the remaining frames and always completes. -/
theorem binaryxmlParse_codec_failure_diverges (codec : Codec)
    (hfail : codec.readMessage [BINARY_XML_START] = none) :
    ∀ fuel, binaryxmlParse codec fuel [BINARY_XML_START] = none := by
  have key : ∀ fuel result,
      binaryxmlLoop codec [BINARY_XML_START] fuel 0 result = none := by
    intro fuel
    induction fuel with
    | zero => intro result; rfl
    | succ f ih =>
      intro result
      rw [binaryxmlLoop, dif_pos (by simp)]
      rw [if_pos (by simp), List.drop_zero, hfail]
      exact ih _
  intro fuel
  exact key fuel _

/-- C5 witness: with the always-failing codec the renderer never finishes on
the single-sentinel message. -/
theorem binaryxmlParse_codec_failure_diverges_witness :
    binaryxmlParse failCodec 7 [BINARY_XML_START] = none :=
  binaryxmlParse_codec_failure_diverges failCodec rfl 7

/-- C6: characterisation of the resync scan `readHex` starting at offset
`o`.  When a sentinel occurs at relative index `d`, the skipped span is
exactly the garbage bytes before it and the resume offset is `o + d`, the
absolute position of the sentinel — as the claim states.  But when no
sentinel occurs before the buffer ends, the unconditional one-byte
back-seek leaves the resume offset at `buffer length - 1`, not at the
buffer length as the claim states, so the `formatBinaryXml` driver calls
`readHex` on the final byte again forever. -/
theorem readHex_resync_behavior :
    (∀ (buf : Bytes) (o d : Nat), o < buf.length →
        (buf.drop o).findIdx? (fun b => b = BINARY_XML_START) = some d →
        readHex buf o = ((buf.drop o).take d, o + d))
    ∧ (∀ (buf : Bytes) (o : Nat), o < buf.length →
        (buf.drop o).findIdx? (fun b => b = BINARY_XML_START) = none →
        readHex buf o = (buf.drop o, buf.length - 1)) := by
  constructor
  · intro buf o d ho hf
    rcases hd : buf.drop o with _ | ⟨a, rest⟩
    · have h2 := congrArg List.length hd
      simp [List.length_drop] at h2
      omega
    · rw [readHex, hd]
      rw [hd] at hf
      simp only [readHexLoop_spec rest a, hf]
      simp only [Prod.mk.injEq]
      exact ⟨trivial, by omega⟩
  · intro buf o ho hf
    rcases hd : buf.drop o with _ | ⟨a, rest⟩
    · have h2 := congrArg List.length hd
      simp [List.length_drop] at h2
      omega
    · rw [readHex, hd]
      rw [hd] at hf
      simp only [readHexLoop_spec rest a, hf]
      have h2 := congrArg List.length hd
      simp only [List.length_drop, List.length_cons] at h2
      simp only [Prod.mk.injEq]
      exact ⟨trivial, by omega⟩

/-- C6 witness: scanning `[1, 2, 121, 5, 6]` from offset 0 skips exactly
the two garbage bytes and resumes at the sentinel position 2; scanning the
sentinel-free `[1, 2, 3]` from offset 0 resumes at 2 (length minus one,
not the length 3). -/
theorem readHex_resync_behavior_witness :
    readHex [1, 2, 121, 5, 6] 0 = ((([1, 2, 121, 5, 6] : Bytes).drop 0).take 2, 0 + 2)
    ∧ readHex [1, 2, 3] 0 = (([1, 2, 3] : Bytes).drop 0, ([1, 2, 3] : Bytes).length - 1) :=
  ⟨readHex_resync_behavior.1 [1, 2, 121, 5, 6] 0 2 (by decide) (by decide),
   readHex_resync_behavior.2 [1, 2, 3] 0 (by decide) (by decide)⟩

/-- C1: in one `proxyTee` iteration, whatever the capture mode, the bytes
written to the peer connections are exactly the chunk read from the inbound
connection, one write per peer in peer order up to the first write failure;
the capture-formatting step influences only the file writes, never the
relayed bytes. -/
theorem relay_fidelity (codec : Codec) (fuel : Nat) (fmt : Fmt)
    (now title : Bytes) (tees : List TeeConn) (chunk outString : Bytes)
    (hr : renderFormat codec fuel fmt chunk = some outString) :
    (proxyTeeIter codec fuel fmt now title tees chunk).map (fun o => o.connWrites)
      = some ((tees.takeWhile (fun t => t.writeOk)).map (fun t => (t.id, chunk))) := by
  simp only [proxyTeeIter, hr, Option.map_some']
  exact congrArg some (teeFanout_connWrites _ _ _ _)

/-- C1 witness: a hex-mode iteration over three peers, the second of which
fails, writes the chunk to the first peer only. -/
theorem relay_fidelity_witness :
    (proxyTeeIter okCodec 3 .hex [78] [84]
        [⟨"outbound", true, true⟩, ⟨"a", false, false⟩, ⟨"b", false, true⟩]
        [1, 2]).map (fun o => o.connWrites)
      = some ((([⟨"outbound", true, true⟩, ⟨"a", false, false⟩,
          ⟨"b", false, true⟩] : List TeeConn).takeWhile (fun t => t.writeOk)).map
            (fun t => (t.id, ([1, 2] : Bytes)))) :=
  relay_fidelity okCodec 3 .hex [78] [84] _ [1, 2] _ rfl

/-- C2: in `binaryfile` (raw-passthrough) mode, `proxyTee` appends the raw
chunk, with no separator, to the inbound capture file and nothing to the tee
files, and `proxy` appends the raw chunk to the tee file; in every other
mode, on a non-empty chunk whose rendering completes, every record appended
to a sink is the rendered string with the timestamp-plus-direction separator
line prepended (`goOutline`). -/
theorem raw_passthrough_identity (codec : Codec) (fuel : Nat)
    (now title : Bytes) (tees : List TeeConn) (chunk outString : Bytes)
    (fmt : Fmt) (passThru writeOk : Bool)
    (hfmt : fmt ≠ .binaryfile) (hchunk : chunk ≠ [])
    (hr : renderFormat codec fuel fmt chunk = some outString) :
    ((proxyTeeIter codec fuel .binaryfile now title tees chunk).map
        (fun o => (o.inboundFileWrite, o.teeFileWrites)) = some (chunk, [])
      ∧ (proxyIter codec fuel .binaryfile now title passThru writeOk chunk).map
          (fun o => o.fileWrite) = some chunk)
    ∧ ((proxyIter codec fuel fmt now title passThru writeOk chunk).map
          (fun o => o.fileWrite) = some (goOutline now title outString)
      ∧ ∀ w ∈ ((proxyTeeIter codec fuel fmt now title tees chunk).elim
            [] (fun o => o.teeFileWrites)), w.2 = goOutline now title outString) := by
  have hout : outString ≠ [] :=
    renderFormat_ne_nil codec fuel fmt chunk outString hfmt hchunk hr
  have hpos : outString.length > 0 := by
    cases outString with
    | nil => exact absurd rfl hout
    | cons a l => simp
  have hdec : (decide (outString.length = 0)) = false :=
    decide_eq_false (by omega)
  refine ⟨⟨?_, ?_⟩, ?_, ?_⟩
  · simp [proxyTeeIter, renderFormat, teeFanout_fileWrites_empty]
  · cases passThru <;> cases writeOk <;>
      simp [proxyIter, renderFormat, proxyFileWrite]
  · cases passThru <;> cases writeOk <;>
      simp [proxyIter, hr, proxyFileWrite, if_pos hpos]
  · intro w hw
    simp only [proxyTeeIter, hr, Option.elim_some] at hw
    rw [hdec] at hw
    exact teeFanout_fileWrites_mem (goOutline now title outString) chunk tees w hw

/-- C2 witness: a concrete chunk in `binaryfile` mode is captured verbatim,
and in `str` mode the appended record is the separator-framed rendering. -/
theorem raw_passthrough_identity_witness :
    ((proxyTeeIter okCodec 1 .binaryfile [78] [84] [⟨"outbound", true, true⟩]
        [80, 73]).map (fun o => (o.inboundFileWrite, o.teeFileWrites))
        = some (([80, 73] : Bytes), [])
      ∧ (proxyIter okCodec 1 .binaryfile [78] [84] true true [80, 73]).map
          (fun o => o.fileWrite) = some ([80, 73] : Bytes))
    ∧ ((proxyIter okCodec 1 .str [78] [84] true true [80, 73]).map
          (fun o => o.fileWrite) = some (goOutline [78] [84] [80, 73])
      ∧ ∀ w ∈ ((proxyTeeIter okCodec 1 .str [78] [84] [⟨"outbound", true, true⟩]
            [80, 73]).elim [] (fun o => o.teeFileWrites)),
          w.2 = goOutline [78] [84] [80, 73]) :=
  raw_passthrough_identity okCodec 1 [78] [84] [⟨"outbound", true, true⟩]
    [80, 73] [80, 73] .str true true (by decide) (by decide) rfl

/-- C3: the peer list built at session setup has the pass-through
"outbound" peer first and every configured tee peer with `passThru =
false`; and a `proxy` response loop echoes the chunks it read back to the
inbound connection, byte-for-byte in order, exactly when its peer is
pass-through (observer peers echo nothing). -/
theorem primary_only_echo (codec : Codec) (fuel : Nat) (fmt : Fmt)
    (now title : Bytes) (outboundWriteOk : Bool) (defs : List (String × Bool))
    (passThru : Bool) (chunks : List Bytes)
    (hr : ∀ c ∈ chunks, renderFormat codec fuel fmt c ≠ none) :
    ((buildTees outboundWriteOk defs).head?.map (fun t => (t.id, t.passThru))
        = some ("outbound", true))
    ∧ (∀ t ∈ (buildTees outboundWriteOk defs).tail, t.passThru = false)
    ∧ (∃ files, proxyRun codec fuel fmt now title passThru true chunks
        = some (files, if passThru then chunks else [])) := by
  refine ⟨rfl, ?_, ?_⟩
  · intro t ht
    simp only [buildTees, List.tail_cons, List.mem_map] at ht
    obtain ⟨d, _, rfl⟩ := ht
    rfl
  · induction chunks with
    | nil => exact ⟨[], by cases passThru <;> rfl⟩
    | cons c cs ih =>
      obtain ⟨out, hout⟩ : ∃ out, renderFormat codec fuel fmt c = some out := by
        rcases h : renderFormat codec fuel fmt c with _ | out
        · exact absurd h (hr c (List.mem_cons_self c cs))
        · exact ⟨out, rfl⟩
      obtain ⟨files, hfiles⟩ := ih (fun x hx => hr x (List.mem_cons_of_mem _ hx))
      refine ⟨proxyFileWrite now title out c :: files, ?_⟩
      have hiter : proxyIter codec fuel fmt now title passThru true c
          = some ⟨proxyFileWrite now title out c,
              if passThru then some c else none, true⟩ := by
        cases passThru <;> simp [proxyIter, hout]
      rw [proxyRun, hiter]
      simp only [hfiles]
      cases passThru <;> simp

/-- C3 witness: with one configured observer, the built peer list is
"outbound" first and pass-through; a pass-through loop over one chunk echoes
it. -/
theorem primary_only_echo_witness :
    ((buildTees true [("observer1", true)]).head?.map (fun t => (t.id, t.passThru))
        = some ("outbound", true))
    ∧ (∀ t ∈ (buildTees true [("observer1", true)]).tail, t.passThru = false)
    ∧ (∃ files, proxyRun okCodec 2 .hex [78] [84] true true [[80]]
        = some (files, if true then [[80]] else [])) :=
  primary_only_echo okCodec 2 .hex [78] [84] true [("observer1", true)] true
    [[80]] (by decide)

/-- C7: if some peer connection write fails, the `proxyTee` request loop
terminates during that iteration: later inbound chunks produce no writes at
all (the run over `chunk :: rest` equals the run over `[chunk]`), and the
connection writes of the failing iteration cover exactly the peers before
the first failing one, in order. -/
theorem tee_write_failure_halts (codec : Codec) (fuel : Nat) (fmt : Fmt)
    (now title : Bytes) (tees : List TeeConn) (chunk : Bytes)
    (rest : List Bytes) (outString : Bytes)
    (hbad : ∃ t ∈ tees, t.writeOk = false)
    (hr : renderFormat codec fuel fmt chunk = some outString) :
    proxyTeeRun codec fuel fmt now title tees (chunk :: rest)
      = proxyTeeRun codec fuel fmt now title tees [chunk]
    ∧ (proxyTeeIter codec fuel fmt now title tees chunk).map (fun o => o.connWrites)
      = some ((tees.takeWhile (fun t => t.writeOk)).map (fun t => (t.id, chunk))) := by
  have hall : tees.all (fun t => t.writeOk) = false := by
    obtain ⟨t, ht, hw⟩ := hbad
    rcases h : tees.all (fun t => t.writeOk) with _ | _
    · rfl
    · have := List.all_eq_true.mp h t ht
      rw [hw] at this
      cases this
  have hcont : (proxyTeeIter codec fuel fmt now title tees chunk).map
      (fun o => o.continues) = some false := by
    simp only [proxyTeeIter, hr, Option.map_some']
    rw [teeFanout_continues, hall]
  constructor
  · rw [proxyTeeRun, proxyTeeRun]
    rcases hit : proxyTeeIter codec fuel fmt now title tees chunk with _ | o
    · rfl
    · have ho : o.continues = false := by
        rw [hit, Option.map_some', Option.some.injEq] at hcont
        exact hcont
      simp [ho]
  · simp only [proxyTeeIter, hr, Option.map_some']
    exact congrArg some (teeFanout_connWrites _ _ _ _)

/-- C7 witness: with the second peer failing, the run over three chunks
equals the run over the first chunk alone, and only the first peer receives
the chunk. -/
theorem tee_write_failure_halts_witness :
    proxyTeeRun okCodec 1 .str [78] [84]
        [⟨"outbound", true, true⟩, ⟨"x", false, false⟩] [[7], [8], [9]]
      = proxyTeeRun okCodec 1 .str [78] [84]
        [⟨"outbound", true, true⟩, ⟨"x", false, false⟩] [[7]]
    ∧ (proxyTeeIter okCodec 1 .str [78] [84]
        [⟨"outbound", true, true⟩, ⟨"x", false, false⟩] [7]).map
          (fun o => o.connWrites)
      = some ((([⟨"outbound", true, true⟩, ⟨"x", false, false⟩] :
          List TeeConn).takeWhile (fun t => t.writeOk)).map
            (fun t => (t.id, ([7] : Bytes)))) :=
  tee_write_failure_halts okCodec 1 .str [78] [84]
    [⟨"outbound", true, true⟩, ⟨"x", false, false⟩] [7] [[8], [9]] [7]
    (by decide) rfl

theorem zipWith_getElem?_congr {α β γ : Type} (f : α → β → γ) (l : List α) :
    ∀ (l₁ l₂ : List β) (n : Nat), l₁[n]? = l₂[n]? →
      (List.zipWith f l l₁)[n]? = (List.zipWith f l l₂)[n]? := by
  induction l with
  | nil => intro l₁ l₂ n h; rfl
  | cons a as ih =>
    intro l₁ l₂ n h
    cases l₁ with
    | nil =>
      cases l₂ with
      | nil => rfl
      | cons b bs =>
        cases n with
        | zero => simp at h
        | succ n =>
          simp only [List.getElem?_nil, List.getElem?_cons_succ] at h
          simpa using ih [] bs n (by simpa using h)
    | cons b1 bs1 =>
      cases l₂ with
      | nil =>
        cases n with
        | zero => simp at h
        | succ n =>
          simp only [List.getElem?_nil, List.getElem?_cons_succ] at h
          simpa using ih bs1 [] n (by simpa using h)
      | cons b2 bs2 =>
        cases n with
        | zero =>
          simp only [List.getElem?_cons_zero, Option.some.injEq] at h
          subst h
          simp [List.zipWith_cons_cons]
        | succ n =>
          simp only [List.getElem?_cons_succ] at h
          simpa using ih bs1 bs2 n h

/-- C9: each response loop is a function of its own peer stream only.  If
two environments agree on every response stream except peer j's (for
example because peer j's connection fails after fewer reads), the
request-direction run is identical and so is the outcome of every other
peer i's response loop: a read failure on one observer terminates only that
observer's `proxy` loop. -/
theorem response_fault_isolation (codec : Codec) (fuel : Nat) (fmt : Fmt)
    (now reqTitle respTitle : Bytes) (tees : List TeeConn)
    (inboundChunks : List Bytes) (streams streams2 : List (List Bytes))
    (i j : Nat) (hij : i ≠ j)
    (hother : ∀ k, k ≠ j → streams2[k]? = streams[k]?) :
    (sessionRun codec fuel fmt now reqTitle respTitle tees inboundChunks streams2).1
      = (sessionRun codec fuel fmt now reqTitle respTitle tees inboundChunks streams).1
    ∧ (sessionRun codec fuel fmt now reqTitle respTitle tees inboundChunks streams2).2[i]?
      = (sessionRun codec fuel fmt now reqTitle respTitle tees inboundChunks streams).2[i]? :=
  ⟨rfl, zipWith_getElem?_congr _ tees streams2 streams i (hother i hij)⟩

/-- C9 witness: truncating the second peer's response stream (a forced read
failure after zero reads) changes neither the request direction nor the
first peer's response outcome. -/
theorem response_fault_isolation_witness :
    (sessionRun okCodec 2 .str [78] [82] [83]
        [⟨"outbound", true, true⟩, ⟨"x", false, true⟩] [[4]]
        [[[5]], []]).1
      = (sessionRun okCodec 2 .str [78] [82] [83]
        [⟨"outbound", true, true⟩, ⟨"x", false, true⟩] [[4]]
        [[[5]], [[6]]]).1
    ∧ (sessionRun okCodec 2 .str [78] [82] [83]
        [⟨"outbound", true, true⟩, ⟨"x", false, true⟩] [[4]]
        [[[5]], []]).2[0]?
      = (sessionRun okCodec 2 .str [78] [82] [83]
        [⟨"outbound", true, true⟩, ⟨"x", false, true⟩] [[4]]
        [[[5]], [[6]]]).2[0]? :=
  response_fault_isolation okCodec 2 .str [78] [82] [83]
    [⟨"outbound", true, true⟩, ⟨"x", false, true⟩] [[4]]
    [[[5]], [[6]]] [[[5]], []] 0 1 (by decide)
    (fun k hk => by
      match k with
      | 0 => rfl
      | 1 => exact absurd rfl hk
      | Nat.succ (Nat.succ m) => rfl)

end ProxyTee
